import Mathlib

/-!
Shallow embedding of `cat_Name_vs_Stock.py` (the cat-name vs stock-trend
analysis script) and proofs about its core pipeline: label classification,
synthetic date assignment, series alignment (groupby + left merge + fillna),
and the outcome behaviour of the Pearson-correlation stage.

Calendar days are modelled as integers (a day number), closing prices as
rationals, and pandas dataframes as explicit records of optional columns so
that in-place column assignment becomes explicit state passing.
-/

namespace CatStock

/-! ### Part 3: label classification (`prep_cat_name_data`)

The script computes `df['NameLower'] = df['CatName'].str.lower()` and then
`df['NameLower'].str.contains('musk|stonks|buffet|tesla|coin|cash|bitcoin',
case=False, na=False)`.  The pattern is a regex alternation of plain literal
words (no metacharacters), so containment holds exactly when some keyword
occurs as a contiguous substring of the lowercased name. -/

/-- The fixed keyword list joined by `'|'` in `prep_cat_name_data`. -/
def finance_keywords : List String :=
  ["musk", "stonks", "buffet", "tesla", "coin", "cash", "bitcoin"]

/-- Executable substring test on character lists: some position `i` of `s`
starts an occurrence of `sub`. -/
def strHasSub (s sub : List Char) : Bool :=
  (List.range (s.length + 1)).any (fun i => ((s.drop i).take sub.length) == sub)

/-- `str.lower()` character-wise, as a character list (the labels in play
are ASCII, where Python and Lean lowering agree). -/
def strLower (s : String) : List Char := s.data.map Char.toLower

/-- The classifier of `prep_cat_name_data`: the lowercased label contains
some finance keyword as a substring (`case=False` is redundant after the
explicit lowering, lowering once is faithful). -/
def isFinanceInspired (label : String) : Bool :=
  finance_keywords.any (fun k => strHasSub (strLower label) k.data)

/-! ### Part 4 data model: events, daily counts, merged rows -/

/-- One row of the prepared cat dataframe once `analyze_cats_vs_stocks` has
assigned its synthetic `Date`: a date together with its
`IsFinanceInspired` flag. -/
structure LEvent where
  date : ℤ
  isFin : Bool
deriving DecidableEq

/-- Dates of the finance-flagged rows,
`cat_df[cat_df['IsFinanceInspired']]['Date']`, with multiplicity. -/
def financeDates (evs : List LEvent) : List ℤ :=
  (evs.filter (fun e => e.isFin)).map (fun e => e.date)

/-- `cat_df[cat_df['IsFinanceInspired']].groupby('Date').size()`: one `(date,
count)` pair per distinct finance-event date.  pandas emits the groups in
sorted key order; the order of this list is irrelevant to the left merge
because the keys are pairwise distinct, so we keep first-occurrence order. -/
def cat_trend (evs : List LEvent) : List (ℤ × ℕ) :=
  (financeDates evs).dedup.map (fun d => (d, (financeDates evs).count d))

/-- Right-hand lookup of the left merge followed by `fillna(0)`: the count
grouped under date `d`, or `0` when no group has that date. -/
def lookupCount (trend : List (ℤ × ℕ)) (d : ℤ) : ℕ :=
  match trend.find? (fun p => p.1 == d) with
  | some p => p.2
  | none => 0

/-- The number of finance-flagged events carrying date `d`. -/
def countOnDate (evs : List LEvent) (d : ℤ) : ℕ :=
  (evs.filter (fun e => e.isFin && e.date == d)).length

/-- One row of `merged`: `(Date, Close, FinanceCatCount)`. -/
structure MergedRow where
  date : ℤ
  close : ℚ
  cnt : ℕ
deriving DecidableEq

/-- `pd.merge(stock_df, cat_trend, on='Date', how='left')` followed by
`merged['FinanceCatCount'].fillna(0)`: the grouped counts have pairwise
distinct dates, so the left join yields exactly one output row per stock
row, in stock order, each looking up its date among the groups. -/
def series_align (stocks : List (ℤ × ℚ)) (evs : List LEvent) : List MergedRow :=
  stocks.map (fun p => ⟨p.1, p.2, lookupCount (cat_trend evs) p.1⟩)

/-! ### Date assignment (`pd.date_range(end=now, periods=N)`) -/

/-- `pd.date_range(end=endDay, periods=n)` at day granularity: `n`
consecutive days ending at `endDay`. -/
def date_range (endDay : ℤ) (n : ℕ) : List ℤ :=
  (List.range n).map (fun i : ℕ => endDay - n + 1 + i)

/-- `cat_df['Date'] = appearance_dates`: the i-th row of the prepared cat
dataframe (its `IsFinanceInspired` flag) is bound positionally to the i-th
synthetic date. -/
def mkEvents (flags : List Bool) (endDay : ℤ) : List LEvent :=
  ((date_range endDay flags.length).zip flags).map (fun p => ⟨p.1, p.2⟩)

/-! ### Correlation stage (`scipy.stats.pearsonr`) outcome model

The script feeds `merged['Close']` and `merged['FinanceCatCount']` to
`scipy.stats.pearsonr`.  Only the outcome classification of that library
call matters to the pipeline's control flow, and it is what we embed (the
numeric correlation value is irrational in general): `pearsonr` raises
`ValueError` when the inputs have unequal lengths or length below 2, and
when either input is constant it issues a `ConstantInputWarning` and
returns `(nan, nan)` without raising; otherwise it returns finite numbers. -/

/-- Outcome of the `pearsonr` call: an exception raised, a silent
`(nan, nan)` return, or a finite result. -/
inductive PearsonResult where
  | err
  | nan
  | ok
deriving DecidableEq

/-- Is the list constant (`(x == x[0]).all()` in scipy)? -/
def isConstList (x : List ℚ) : Bool :=
  match x with
  | [] => true
  | a :: t => t.all (fun b => b == a)

/-- Outcome classification of `scipy.stats.pearsonr(x, y)`. -/
def pearsonr (x y : List ℚ) : PearsonResult :=
  if x.length ≠ y.length then .err
  else if x.length < 2 then .err
  else if isConstList x || isConstList y then .nan
  else .ok

/-! ### `analyze_cats_vs_stocks` and the `__main__` gate

The whole body of `analyze_cats_vs_stocks` sits in a `try`: a raised
`ValueError` from `pearsonr` lands in the `except` branch, which prints the
error and returns `(None, None, None)`; a silent `(nan, nan)` return does
not, and flows out as a "successful" triple.  `__main__` then runs
`export_reports` only under `if merged is not None`. -/

/-- `analyze_cats_vs_stocks` on the prepared flags, the processing day and
the stock rows: `none` models the `(None, None, None)` return of the
`except` branch, `some` the `(merged, correlation, p_value)` return. -/
def analyze_cats_vs_stocks (flags : List Bool) (endDay : ℤ)
    (stocks : List (ℤ × ℚ)) : Option (List MergedRow × PearsonResult) :=
  let merged := series_align stocks (mkEvents flags endDay)
  match pearsonr (merged.map (fun r => r.close)) (merged.map (fun r => (r.cnt : ℚ))) with
  | .err => none
  | .nan => some (merged, .nan)
  | .ok => some (merged, .ok)

/-- The report handed to `export_reports`: the merged rows plus the
correlation outcome.  Its exact shape is out of scope; only whether it is
produced matters here. -/
def reportAssembler (res : List MergedRow × PearsonResult) :
    List MergedRow × PearsonResult := res

/-- The `__main__` tail: `if merged is not None: export_reports(...)` —
the report is assembled exactly when the analysis returned a triple. -/
def mainRun (flags : List Bool) (endDay : ℤ) (stocks : List (ℤ × ℚ)) :
    Option (List MergedRow × PearsonResult) :=
  (analyze_cats_vs_stocks flags endDay stocks).map reportAssembler

/-! ### Dataframe objects and in-place column assignment

`prep_cat_name_data(df)` executes `df['NameLower'] = ...` and
`df['IsFinanceInspired'] = ...` on the very dataframe object the caller
passed, and `analyze_cats_vs_stocks` likewise executes
`cat_df['Date'] = appearance_dates` and
`stock_df['Date'] = pd.to_datetime(stock_df['Date'])`.  We model a
dataframe as a record whose optional fields are the columns that may or may
not have been added yet, and model each in-place assignment by an explicit
post-state function: the caller's object equals the post-state after the
call (for `prep_cat_name_data` the return value is that same object). -/

/-- The cat dataframe: the scraped `CatName` column plus the columns the
pipeline may add to the same object. -/
structure CatDF where
  catName : List String
  nameLower : Option (List String)
  isFinCol : Option (List Bool)
  dateCol : Option (List ℤ)
deriving DecidableEq

/-- The stock dataframe: `Date` and `Close` columns. -/
structure StockDF where
  dateCol : List ℤ
  closeCol : List ℚ
deriving DecidableEq

/-- `prep_cat_name_data`: adds `NameLower` and `IsFinanceInspired` columns.
Python returns the mutated argument itself, so this is simultaneously the
return value and the post-state of the caller's dataframe. -/
def prep_cat_name_data (df : CatDF) : CatDF :=
  { df with
    nameLower := some (df.catName.map String.toLower)
    isFinCol := some (df.catName.map isFinanceInspired) }

/-- Post-state of `cat_df` after `analyze_cats_vs_stocks` executed
`cat_df['Date'] = appearance_dates`. -/
def analyze_cat_post_state (df : CatDF) (endDay : ℤ) : CatDF :=
  { df with dateCol := some (date_range endDay df.catName.length) }

/-- `pd.to_datetime` on the stock `Date` column.  The column already holds
calendar days (yfinance returns datetimes), so the conversion is the
identity on the values. -/
def to_datetime (dates : List ℤ) : List ℤ := dates

/-- The alignment stage with its state threaded: it first executes
`stock_df['Date'] = pd.to_datetime(stock_df['Date'])` (the one write to
`stock_df`), then groups, merges and fills.  Returns the merged rows
together with the post-state of `stock_df`. -/
def series_align_run (s : StockDF) (evs : List LEvent) :
    List MergedRow × StockDF :=
  let s' : StockDF := { s with dateCol := to_datetime s.dateCol }
  (series_align (s'.dateCol.zip s'.closeCol) evs, s')

/-! ## Helper lemmas -/

/-- The executable substring test agrees with the existential
characterisation of substring containment. -/
theorem strHasSub_iff (s sub : List Char) :
    strHasSub s sub = true ↔ ∃ l r, s = l ++ sub ++ r := by
  unfold strHasSub
  simp only [List.any_eq_true, List.mem_range, beq_iff_eq]
  constructor
  · rintro ⟨i, _, h⟩
    refine ⟨s.take i, s.drop (i + sub.length), ?_⟩
    have h2 : s.drop i = sub ++ s.drop (i + sub.length) := by
      conv_lhs => rw [← List.take_append_drop sub.length (s.drop i)]
      rw [h, List.drop_drop]
    calc s = s.take i ++ s.drop i := (List.take_append_drop i s).symm
      _ = s.take i ++ (sub ++ s.drop (i + sub.length)) := by rw [h2]
      _ = s.take i ++ sub ++ s.drop (i + sub.length) := by rw [List.append_assoc]
  · rintro ⟨l, r, rfl⟩
    refine ⟨l.length, ?_, ?_⟩
    · simp only [List.length_append]
      omega
    · rw [List.append_assoc, List.drop_left, List.take_left]

/-- The classifier returns `true` exactly when some finance keyword occurs
as a substring of the lowercased label. -/
theorem isFinanceInspired_iff (label : String) :
    isFinanceInspired label = true ↔
      ∃ k ∈ finance_keywords, ∃ l r, strLower label = l ++ k.data ++ r := by
  unfold isFinanceInspired
  simp only [List.any_eq_true, strHasSub_iff]

/-- Looking up a key among entries built from pairwise-distinct keys finds
the entry of that key, and nothing otherwise. -/
theorem find?_keyed_map (ks : List ℤ) (f : ℤ → ℕ) (d : ℤ) :
    (ks.map (fun k => (k, f k))).find? (fun p => p.1 == d) =
      if d ∈ ks then some (d, f d) else none := by
  induction ks with
  | nil => rfl
  | cons k ks ih =>
    rw [List.map_cons]
    by_cases hk : k = d
    · subst hk
      rw [List.find?_cons_of_pos _ (by simp)]
      simp
    · rw [List.find?_cons_of_neg _ (by simp [hk]), ih]
      have hdk : ¬d = k := fun h => hk h.symm
      simp [List.mem_cons, hdk]

/-- The lookup the left merge performs against the grouped counts (with
`fillna(0)`) returns the number of finance events of that date. -/
theorem lookupCount_cat_trend (evs : List LEvent) (d : ℤ) :
    lookupCount (cat_trend evs) d = (financeDates evs).count d := by
  unfold lookupCount cat_trend
  rw [find?_keyed_map]
  by_cases hd : d ∈ (financeDates evs).dedup
  · rw [if_pos hd]
  · rw [if_neg hd]
    exact (List.count_eq_zero.mpr (fun h => hd (List.mem_dedup.mpr h))).symm

/-- Counting finance events of a given date equals the multiplicity of the
date among the finance-event dates. -/
theorem countOnDate_eq (evs : List LEvent) (d : ℤ) :
    countOnDate evs d = (financeDates evs).count d := by
  induction evs with
  | nil => rfl
  | cons e evs ih =>
    simp only [countOnDate, financeDates, List.filter_cons] at ih ⊢
    cases hf : e.isFin with
    | false => simpa using ih
    | true =>
      by_cases hd : e.date = d
      · simp [hd, List.count_cons, ih]
      · simp [hd, List.count_cons, ih]

/-- Filtering by a disjunction of pointwise-exclusive predicates splits the
length additively. -/
theorem length_filter_or_disjoint {α : Type} (l : List α) (p q : α → Bool)
    (h : ∀ x ∈ l, ¬(p x = true ∧ q x = true)) :
    (l.filter (fun x => p x || q x)).length =
      (l.filter p).length + (l.filter q).length := by
  induction l with
  | nil => rfl
  | cons a l ih =>
    have ha := h a (List.mem_cons_self a l)
    have ih' := ih (fun x hx => h x (List.mem_cons_of_mem a hx))
    cases hp : p a with
    | true =>
      cases hq : q a with
      | true => exact absurd ⟨hp, hq⟩ ha
      | false =>
        simp only [List.filter_cons, hp, hq, Bool.true_or, if_true]
        simp [ih']
        omega
    | false =>
      cases hq : q a with
      | true =>
        simp only [List.filter_cons, hp, hq, Bool.false_or, if_true]
        simp [ih']
        omega
      | false =>
        simp only [List.filter_cons, hp, hq, Bool.false_or, if_false]
        simpa using ih'

/-- Summing per-date multiplicities over a duplicate-free date list counts
the elements falling in that list. -/
theorem sum_count_eq_length_filter (L D : List ℤ) (hD : D.Nodup) :
    (D.map (fun d => L.count d)).sum =
      (L.filter (fun x => D.contains x)).length := by
  induction D with
  | nil => simp
  | cons d D ih =>
    obtain ⟨hd, hD'⟩ := List.nodup_cons.mp hD
    rw [List.map_cons, List.sum_cons, ih hD']
    have hsplit := length_filter_or_disjoint L (fun x => x == d)
      (fun x => D.contains x) (by
        intro x _ hx
        obtain ⟨h1, h2⟩ := hx
        have : x = d := by simpa using h1
        subst this
        exact hd (by simpa using h2))
    have hcount : L.count d = (L.filter (fun x => x == d)).length := by
      rw [List.count_eq_countP, List.countP_eq_length_filter]
    rw [hcount, ← hsplit]
    simp only [List.contains_cons]

/-! ## Claims -/

/-- C1: on a price sequence with unique dates, the SeriesAligner output has
exactly one row per input price point, in the same date order, each row
carrying the number of finance-themed events of its date (0 when none);
and the spec scenario: prices [(1,100),(2,102),(3,101)] with finance
events only on day 2 (count 2) merge to [(1,100,0),(2,102,2),(3,101,0)]. -/
theorem C1_series_aligner :
    (∀ (stocks : List (ℤ × ℚ)) (evs : List LEvent),
        (stocks.map Prod.fst).Nodup →
        series_align stocks evs =
          stocks.map (fun p => ⟨p.1, p.2, countOnDate evs p.1⟩)) ∧
    series_align [(1, 100), (2, 102), (3, 101)]
        [⟨2, true⟩, ⟨2, true⟩, ⟨1, false⟩] =
      [⟨1, 100, 0⟩, ⟨2, 102, 2⟩, ⟨3, 101, 0⟩] := by
  constructor
  · intro stocks evs _
    unfold series_align
    exact List.map_congr_left
      (fun p _ => by rw [lookupCount_cat_trend, countOnDate_eq])
  · decide

/-- C1 witness: the general alignment shape applied at a concrete
two-point price list. -/
theorem C1_series_aligner_witness :
    series_align [(5, 10), (7, 20)] [⟨7, true⟩] =
      ([(5, 10), (7, 20)] : List (ℤ × ℚ)).map
        (fun p => ⟨p.1, p.2, countOnDate [⟨7, true⟩] p.1⟩) :=
  C1_series_aligner.1 [(5, 10), (7, 20)] [⟨7, true⟩] (by decide)

/-- C6: for inputs satisfying the aligner's precondition (unique price
dates), the merged output has one row per price point and the counts sum
to the number of finance-themed events whose date is some price point's
date; events on non-trading days contribute nothing. -/
theorem C6_merge_invariant (stocks : List (ℤ × ℚ)) (evs : List LEvent)
    (h : (stocks.map Prod.fst).Nodup) :
    (series_align stocks evs).length = stocks.length ∧
    ((series_align stocks evs).map (fun r => r.cnt)).sum =
      (evs.filter
        (fun e => e.isFin && (stocks.map Prod.fst).contains e.date)).length := by
  constructor
  · rw [series_align, List.length_map]
  · have h1 : (series_align stocks evs).map (fun r => r.cnt) =
        (stocks.map Prod.fst).map (fun d => (financeDates evs).count d) := by
      unfold series_align
      rw [List.map_map, List.map_map]
      exact List.map_congr_left (fun p _ => by simp [lookupCount_cat_trend])
    rw [h1, sum_count_eq_length_filter _ _ h]
    unfold financeDates
    rw [List.filter_map, List.length_map, List.filter_filter]
    congr 1
    exact List.filter_congr (fun e _ => Bool.and_comm _ _)

/-- C2: fed two sequences of length below 2, the correlation stage raises
the library's length `ValueError` — a validation failure the caller can
distinguish (the `except` branch turns it into the `None` triple) — and in
particular does not return NaN; the process does not crash. -/
theorem C2_correlation_short_input (x y : List ℚ)
    (hx : x.length < 2) (hy : y.length < 2) :
    pearsonr x y = PearsonResult.err ∧
    pearsonr x y ≠ PearsonResult.nan := by
  have he : pearsonr x y = PearsonResult.err := by
    unfold pearsonr
    by_cases h : x.length = y.length
    · rw [if_neg (by omega), if_pos hx]
    · rw [if_pos h]
  exact ⟨he, by rw [he]; intro hc; exact PearsonResult.noConfusion hc⟩

/-- C2 witness: the singleton sequences `[5]` and `[7]`. -/
theorem C2_correlation_short_input_witness :
    pearsonr [5] [7] = PearsonResult.err ∧
    pearsonr [5] [7] ≠ PearsonResult.nan :=
  C2_correlation_short_input [5] [7] (by decide) (by decide)

/-- C3 counterexample: on the constant close column `[100, 100]` against
counts `[0, 2]`, the `pearsonr` call silently returns `(nan, nan)` — no
error is signalled — and `analyze_cats_vs_stocks` on a pipeline input
producing that constant close column hands the NaN onward as a
"successful" triple. -/
theorem C3_constant_input_counterexample :
    pearsonr [100, 100] [0, 2] = PearsonResult.nan ∧
    PearsonResult.nan ≠ PearsonResult.err ∧
    analyze_cats_vs_stocks [] 0 [(1, 100), (2, 100)] =
      some ([⟨1, 100, 0⟩, ⟨2, 100, 0⟩], PearsonResult.nan) := by
  refine ⟨by decide, by decide, ?_⟩
  decide

/-- C3 amended: for equal-length inputs of length at least 2 of which at
least one is constant, the correlation stage silently returns NaN (with
only a library warning) and the pipeline treats it as a success. -/
theorem C3_constant_input_nan (x y : List ℚ)
    (hlen : x.length = y.length) (h2 : 2 ≤ x.length)
    (hc : (isConstList x || isConstList y) = true) :
    pearsonr x y = PearsonResult.nan := by
  unfold pearsonr
  rw [if_neg (by omega), if_neg (by omega), if_pos hc]

/-- C3 amended witness: the constant sequence `[100, 100]` against
`[0, 2]`. -/
theorem C3_constant_input_nan_witness :
    pearsonr [100, 100] [0, 2] = PearsonResult.nan :=
  C3_constant_input_nan [100, 100] [0, 2] (by decide) (by decide) (by decide)

/-- C7 counterexample: a price sequence with a duplicate date is not
rejected — the aligner (a total function in the code, with no validation
on its inputs) performs the join and returns ordinary merged rows. -/
theorem C7_duplicate_dates_counterexample :
    series_align [(1, 100), (1, 100), (2, 102)] [⟨1, true⟩] =
      [⟨1, 100, 1⟩, ⟨1, 100, 1⟩, ⟨2, 102, 0⟩] := by
  decide

/-- C7 amended: on a price sequence with duplicate dates the aligner
performs the left join anyway, without signalling: one output row per
input price row (the grouped counts have unique dates, so no row is
duplicated), each row carrying the finance-event count of its date. -/
theorem C7_duplicate_dates_joined (stocks : List (ℤ × ℚ))
    (evs : List LEvent) (hdup : ¬(stocks.map Prod.fst).Nodup) :
    series_align stocks evs =
      stocks.map (fun p => ⟨p.1, p.2, countOnDate evs p.1⟩) := by
  unfold series_align
  exact List.map_congr_left
    (fun p _ => by rw [lookupCount_cat_trend, countOnDate_eq])

/-- C7 amended witness: a duplicated day 1. -/
theorem C7_duplicate_dates_joined_witness :
    series_align [(1, 100), (1, 100)] [⟨1, true⟩] =
      ([(1, 100), (1, 100)] : List (ℤ × ℚ)).map
        (fun p => ⟨p.1, p.2, countOnDate [⟨1, true⟩] p.1⟩) :=
  C7_duplicate_dates_joined [(1, 100), (1, 100)] [⟨1, true⟩] (by decide)

/-- C8: when the correlation stage fails (the only failing core stage —
the aligner is a total function in the code), the `except` branch makes
`analyze_cats_vs_stocks` return the `None` triple, which `__main__`'s
`if merged is not None` gate turns into skipping `export_reports`; `none`
is distinguishable by construction from every `some` result, in
particular from a successful run whose correlation is zero. -/
theorem C8_failure_propagation (flags : List Bool) (endDay : ℤ)
    (stocks : List (ℤ × ℚ))
    (h : pearsonr
        ((series_align stocks (mkEvents flags endDay)).map (fun r => r.close))
        ((series_align stocks (mkEvents flags endDay)).map
          (fun r => (r.cnt : ℚ))) = PearsonResult.err) :
    analyze_cats_vs_stocks flags endDay stocks = none ∧
    mainRun flags endDay stocks = none ∧
    ∀ out, analyze_cats_vs_stocks flags endDay stocks ≠ some out := by
  have ha : analyze_cats_vs_stocks flags endDay stocks = none := by
    unfold analyze_cats_vs_stocks
    simp only [h]
  refine ⟨ha, by rw [mainRun, ha]; rfl, ?_⟩
  intro out hout
  rw [ha] at hout
  exact Option.noConfusion hout

/-- C8 witness: the empty pipeline input, on which the correlation stage
raises the length error. -/
theorem C8_failure_propagation_witness :
    analyze_cats_vs_stocks [] 0 [] = none ∧
    mainRun [] 0 [] = none ∧
    ∀ out, analyze_cats_vs_stocks [] 0 [] ≠ some out :=
  C8_failure_propagation [] 0 [] (by decide)

/-- C9 counterexample: `prep_cat_name_data` does not leave its input
unchanged — called on a dataframe without the derived columns, the
caller's object (which the function returns after its in-place column
assignments) differs from the input. -/
theorem C9_no_mutation_counterexample :
    prep_cat_name_data ⟨["Musk"], none, none, none⟩ ≠
      (⟨["Musk"], none, none, none⟩ : CatDF) := by
  decide

/-- C9 amended: the classification and date-assignment stages write their
derived columns into the dataframe object they receive (so the caller's
object changes whenever a column was absent), the original `CatName`
column is preserved, and the alignment stage leaves the stock dataframe's
values unchanged while returning a newly constructed merged structure. -/
theorem C9_stage_mutation (df : CatDF) (endDay : ℤ) (s : StockDF)
    (evs : List LEvent) (hna : df.nameLower = none) :
    prep_cat_name_data df ≠ df ∧
    (prep_cat_name_data df).catName = df.catName ∧
    (analyze_cat_post_state df endDay).dateCol =
      some (date_range endDay df.catName.length) ∧
    (series_align_run s evs).2 = s := by
  refine ⟨?_, rfl, rfl, rfl⟩
  intro hEq
  have hcol := congrArg CatDF.nameLower hEq
  rw [hna] at hcol
  simp [prep_cat_name_data] at hcol

/-- C9 witness: a one-row dataframe without derived columns, a one-day
stock frame. -/
theorem C9_stage_mutation_witness :
    prep_cat_name_data ⟨["Whiskers"], none, none, none⟩ ≠
      (⟨["Whiskers"], none, none, none⟩ : CatDF) ∧
    (prep_cat_name_data ⟨["Whiskers"], none, none, none⟩).catName =
      (⟨["Whiskers"], none, none, none⟩ : CatDF).catName ∧
    (analyze_cat_post_state ⟨["Whiskers"], none, none, none⟩ 3).dateCol =
      some (date_range 3
        (⟨["Whiskers"], none, none, none⟩ : CatDF).catName.length) ∧
    (series_align_run ⟨[1], [100]⟩ []).2 = (⟨[1], [100]⟩ : StockDF) :=
  C9_stage_mutation ⟨["Whiskers"], none, none, none⟩ 3 ⟨[1], [100]⟩ [] rfl

/-- C10: the alignment stage reads nothing but its arguments; threading
its only state effect (the normalised stock `Date` column) explicitly,
a second run on the same immutable inputs — receiving the post-state of
the first — produces the identical merged output and an unchanged
state. -/
theorem C10_align_run_twice (s : StockDF) (evs : List LEvent) :
    (series_align_run ((series_align_run s evs).2) evs).1 =
      (series_align_run s evs).1 ∧
    (series_align_run ((series_align_run s evs).2) evs).2 =
      (series_align_run s evs).2 :=
  ⟨rfl, rfl⟩

/-- C6 witness: two trading days, two finance events of which one falls on
a non-trading day and is dropped, one non-finance event. -/
theorem C6_merge_invariant_witness :
    (series_align [(1, 100), (2, 102)]
        [⟨2, true⟩, ⟨5, true⟩, ⟨1, false⟩]).length =
      ([(1, 100), (2, 102)] : List (ℤ × ℚ)).length ∧
    ((series_align [(1, 100), (2, 102)]
        [⟨2, true⟩, ⟨5, true⟩, ⟨1, false⟩]).map (fun r => r.cnt)).sum =
      (([⟨2, true⟩, ⟨5, true⟩, ⟨1, false⟩] : List LEvent).filter
        (fun e => e.isFin &&
          (([(1, 100), (2, 102)] : List (ℤ × ℚ)).map Prod.fst).contains
            e.date)).length :=
  C6_merge_invariant _ _ (by decide)

/-- C4: the LabelClassifier returns true iff the lowercased label contains
one of the fixed finance keywords as a substring; it is total over strings
(a Lean function), returns false on the empty string, true on "Musk",
"MUSK", "musky", and false on "Whiskers" and "Luna". -/
theorem C4_label_classifier :
    (∀ label : String, isFinanceInspired label = true ↔
        ∃ k ∈ finance_keywords, ∃ l r, strLower label = l ++ k.data ++ r) ∧
    isFinanceInspired "" = false ∧
    isFinanceInspired "Musk" = true ∧
    isFinanceInspired "MUSK" = true ∧
    isFinanceInspired "musky" = true ∧
    isFinanceInspired "Whiskers" = false ∧
    isFinanceInspired "Luna" = false := by
  refine ⟨isFinanceInspired_iff, ?_, ?_, ?_, ?_, ?_, ?_⟩ <;> decide

/-- C4 witness: the characterisation applied at the concrete label
"Musky". -/
theorem C4_label_classifier_witness :
    ∃ k ∈ finance_keywords, ∃ l r, strLower "Musky" = l ++ k.data ++ r :=
  (C4_label_classifier.1 "Musky").mp (by decide)

/-- C5: the DateAssigner (`pd.date_range(end=now, periods=N)` plus the
positional column assignment) produces exactly N dates, pairwise distinct,
the i-th being `now - N + 1 + i` (hence a contiguous ascending run of N
consecutive days), the last equal to the processing day, and the i-th
label's flag is bound to the i-th date. -/
theorem C5_date_assigner (flags : List Bool) (endDay : ℤ) :
    (date_range endDay flags.length).length = flags.length ∧
    (date_range endDay flags.length).Nodup ∧
    (∀ i : ℕ, i < flags.length →
      (date_range endDay flags.length)[i]? =
        some (endDay - flags.length + 1 + i)) ∧
    (0 < flags.length →
      (date_range endDay flags.length).getLast? = some endDay) ∧
    (mkEvents flags endDay).length = flags.length ∧
    (∀ i : ℕ, ∀ b : Bool, flags[i]? = some b →
      (mkEvents flags endDay)[i]? =
        some ⟨endDay - flags.length + 1 + i, b⟩) := by
  have hgetd : ∀ i : ℕ, i < flags.length →
      (date_range endDay flags.length)[i]? =
        some (endDay - flags.length + 1 + i) := by
    intro i hi
    rw [date_range, List.getElem?_map, List.getElem?_range hi]
    rfl
  have hlen : (date_range endDay flags.length).length = flags.length := by
    rw [date_range, List.length_map, List.length_range]
  refine ⟨hlen, ?_, hgetd, ?_, ?_, ?_⟩
  · exact List.Nodup.map (fun a b h => by omega) (List.nodup_range flags.length)
  · intro hpos
    rw [List.getLast?_eq_getElem?, hlen, hgetd (flags.length - 1) (by omega)]
    congr 1
    have : ((flags.length - 1 : ℕ) : ℤ) = (flags.length : ℤ) - 1 := by omega
    rw [this]; ring
  · rw [mkEvents, List.length_map, List.length_zip, hlen, Nat.min_self]
  · intro i b hb
    have hi : i < flags.length := by
      by_contra hlt
      rw [List.getElem?_eq_none (by omega)] at hb
      exact Option.noConfusion hb
    simp only [mkEvents, List.getElem?_map]
    rw [(List.getElem?_zip_eq_some
      (z := (endDay - (flags.length : ℤ) + 1 + (i : ℕ), b))).mpr ⟨hgetd i hi, hb⟩]
    rfl

/-- C5 witness: five labels on processing day 0 get the dates
-4, -3, -2, -1, 0, the last being the processing day. -/
theorem C5_date_assigner_witness :
    (date_range 0 ([true, false, true, false, false] : List Bool).length).Nodup ∧
    (date_range 0 ([true, false, true, false, false] : List Bool).length).getLast? = some 0 ∧
    (mkEvents [true, false, true, false, false] 0)[2]? = some ⟨-2, true⟩ := by
  have h := C5_date_assigner [true, false, true, false, false] 0
  exact ⟨h.2.1, h.2.2.2.1 (by decide), by
    have := h.2.2.2.2.2 2 true (by decide)
    simpa using this⟩

end CatStock
